import Mathlib

/-!
Verification development for the MLS chatbot server (the CSV-backed
query/formatting layer of `server.js` and its planner variant).

The JavaScript code is shallowly embedded:
* a CSV row is an association list from column name to cell string
  (a missing key models a JavaScript `undefined` property);
* JavaScript string helpers (`trim`, `toLowerCase`, `includes`,
  `Array.prototype.join`) are re-implemented over `List Char` so that
  every definition is executable and kernel-reducible;
* `Number(...)` coercion is modelled by `jsStrToNum`, covering the
  decimal forms (optional sign, integer/fraction digits, optional
  exponent).  Exotic forms (hex literals, `Infinity`) are out of scope:
  no claim under verification exercises them, and they coerce to `none`
  (NaN) here;
* fallible lookups return `Option`; the one reachable runtime exception
  (`formatAddress` applied to an `undefined` row) is modelled by an
  outer `Option` on `ensureListingFromIndex`.
-/

namespace Mls

/-- A CSV row: association list from column name to cell text.
Lookup of an absent key models a JavaScript `undefined` property. -/
abbrev Row : Type := List (String × String)

/-- JavaScript `Array.prototype.indexOf` position scan, with the Lean
convention: the list length plays the role of the `-1` not-found
sentinel (both make a subsequent `mlsRows[rowIndex]` access yield
`undefined`). -/
def jsIndexOf (l : List Row) (r : Row) : Nat :=
  match l with
  | [] => 0
  | x :: t => if x = r then 0 else jsIndexOf t r + 1

theorem jsIndexOf_lt_length {l : List Row} {r : Row} (h : r ∈ l) :
    jsIndexOf l r < l.length := by
  induction l with
  | nil => cases h
  | cons x t ih =>
    rw [jsIndexOf]
    by_cases hx : x = r
    · rw [if_pos hx]
      simp
    · rw [if_neg hx]
      have : r ∈ t := by
        cases List.mem_cons.mp h with
        | inl h2 => exact absurd h2.symm hx
        | inr h2 => exact h2
      simpa [List.length_cons] using Nat.succ_lt_succ (ih this)

theorem get?_jsIndexOf {l : List Row} {r : Row} (h : r ∈ l) :
    l.get? (jsIndexOf l r) = some r := by
  induction l with
  | nil => cases h
  | cons x t ih =>
    rw [jsIndexOf]
    by_cases hx : x = r
    · rw [if_pos hx, hx]
      rfl
    · rw [if_neg hx]
      have : r ∈ t := by
        cases List.mem_cons.mp h with
        | inl h2 => exact absurd h2.symm hx
        | inr h2 => exact h2
      simpa using ih this

/-- `row[k]` in JavaScript: `some` cell text, or `none` for `undefined`. -/
def rowGet (row : Row) (k : String) : Option String :=
  (List.find? (fun p => p.1 = k) row).map (fun p => p.2)

/-- JavaScript `a || b` for a possibly-undefined string `a`:
falls through to `b` when `a` is `undefined` or the empty string. -/
def jsOrStr (a : Option String) (b : String) : String :=
  match a with
  | some s => if s = "" then b else s
  | none => b

/-- JavaScript `String.prototype.toLowerCase` (character-wise). -/
def jsToLower (s : String) : String := ⟨s.data.map Char.toLower⟩

/-- JavaScript `String.prototype.trim`: strip whitespace at both ends. -/
def jsTrim (s : String) : String :=
  ⟨(((s.data.dropWhile Char.isWhitespace).reverse.dropWhile
      Char.isWhitespace).reverse)⟩

/-- Contiguous-sublist test on character lists. -/
def infixCheck (needle : List Char) : List Char → Bool
  | [] => needle.isEmpty
  | c :: t => needle.isPrefixOf (c :: t) || infixCheck needle t

/-- JavaScript `hay.includes(needle)`: substring test. -/
def strIncludes (hay needle : String) : Bool :=
  infixCheck needle.data hay.data

/-- JavaScript `Array.prototype.join(sep)` on string arrays. -/
def joinSep (sep : String) : List String → String
  | [] => ""
  | [x] => x
  | x :: xs => x ++ sep ++ joinSep sep xs

/-- Value of a decimal digit string (most significant first). -/
def natFromDigits (l : List Char) : Nat :=
  l.foldl (fun acc c => acc * 10 + (c.toNat - '0'.toNat)) 0

/-- An exact decimal number: value `num / 10 ^ scale`.  JavaScript
numbers appearing here are decimal literals from the CSV or the
planner; they are modelled exactly (IEEE rounding is out of scope). -/
structure JsNum where
  num : Int
  scale : Nat
deriving DecidableEq

namespace JsNum

/-- Value order: `a < b` by cross-multiplication. -/
def ltb (a b : JsNum) : Bool :=
  a.num * (10 : Int) ^ b.scale < b.num * (10 : Int) ^ a.scale

/-- Value order: `a ≤ b` by cross-multiplication. -/
def leb (a b : JsNum) : Bool :=
  a.num * (10 : Int) ^ b.scale ≤ b.num * (10 : Int) ^ a.scale

end JsNum

/-- JavaScript `Number(s)` on a string, as an exact decimal;
`none` models NaN.  Handles the decimal literal forms: optional sign,
integer and/or fraction digits, optional decimal exponent.  The empty
(or all-whitespace) string coerces to `0`, as in JavaScript.  Exotic
forms (hex literals, `Infinity`) are not modelled and yield NaN; no
claim under verification exercises them. -/
def jsStrToNum (s : String) : Option JsNum :=
  match (jsTrim s).data with
  | [] => some (JsNum.mk 0 0)
  | cs =>
    let signAndRest : Int × List Char :=
      match cs with
      | '+' :: r => (1, r)
      | '-' :: r => (-1, r)
      | r => (1, r)
    let sign := signAndRest.1
    let body := signAndRest.2
    let ip := body.takeWhile Char.isDigit
    let afterInt := body.dropWhile Char.isDigit
    let fracAndRest : List Char × List Char :=
      match afterInt with
      | '.' :: r => (r.takeWhile Char.isDigit, r.dropWhile Char.isDigit)
      | r => ([], r)
    let fp := fracAndRest.1
    let afterFrac := fracAndRest.2
    let hadPoint : Bool :=
      match afterInt with
      | '.' :: _ => true
      | _ => false
    if ip = [] ∧ fp = [] then none
    else
      let mantissa : JsNum :=
        JsNum.mk (sign * (natFromDigits (ip ++ fp) : Int)) fp.length
      match afterFrac with
      | [] => some mantissa
      | 'e' :: r => jsStrToNumExp mantissa r
      | 'E' :: r => jsStrToNumExp mantissa r
      | _ =>
        -- a '.' with no digits after an integer part, e.g. "5.", is the
        -- bare mantissa in JavaScript; anything else is NaN
        if hadPoint ∧ fp = [] ∧ afterFrac = [] then some mantissa else none
where
  /-- Decimal exponent suffix of a JavaScript number literal. -/
  jsStrToNumExp (mantissa : JsNum) (r : List Char) : Option JsNum :=
    let signAndRest : Bool × List Char :=
      match r with
      | '+' :: t => (false, t)
      | '-' :: t => (true, t)
      | t => (false, t)
    let ds := signAndRest.2
    if ds ≠ [] ∧ ds.all Char.isDigit then
      some (if signAndRest.1 then
        JsNum.mk mantissa.num (mantissa.scale + natFromDigits ds)
      else JsNum.mk (mantissa.num * (10 : Int) ^ natFromDigits ds)
        mantissa.scale)
    else none

/-- JavaScript `Number(raw)` for `raw = row[col]`:
`undefined` coerces to NaN (`none`). -/
def jsNumOfCell (raw : Option String) : Option JsNum :=
  match raw with
  | none => none
  | some s => jsStrToNum s

/-- A planner-supplied JSON value: `string | number | null`. -/
inductive JsValue
  | str (s : String)
  | num (n : JsNum)
  | null
deriving DecidableEq

/-- Digit characters of a natural number, most significant first. -/
def natDigits (n : Nat) : List Char := (toString n).data

/-- Decimal rendering of a `JsNum`, used for JavaScript
number-to-string coercion: sign, integer part, and the fraction digits
with trailing zeros stripped. -/
def jsNumToString (n : JsNum) : String :=
  let sign := if n.num < 0 then "-" else ""
  let a := n.num.natAbs
  let ipart := a / 10 ^ n.scale
  let fdigits : List Char :=
    stripZeros (padLeft (natDigits (a % 10 ^ n.scale)) n.scale)
  if fdigits = [] then sign ++ toString ipart
  else sign ++ toString ipart ++ "." ++ String.mk fdigits
where
  /-- Left-pad a digit string with zeros to the given width. -/
  padLeft (l : List Char) (w : Nat) : List Char :=
    List.replicate (w - l.length) '0' ++ l
  /-- Strip trailing zeros. -/
  stripZeros (l : List Char) : List Char :=
    (l.reverse.dropWhile (fun c => c = '0')).reverse

/-- JavaScript `String(value)` on a planner value. -/
def jsStringOfValue (v : JsValue) : String :=
  match v with
  | .str s => s
  | .num n => jsNumToString n
  | .null => "null"

/-- JavaScript `Number(value)` on a planner value
(`Number(null) = 0`). -/
def jsNumOfValue (v : JsValue) : Option JsNum :=
  match v with
  | .str s => jsStrToNum s
  | .num n => some n
  | .null => some (JsNum.mk 0 0)

/-! ### Address synthesis (`formatAddress`) -/

/-- `row.StreetNumberNumeric || row.StreetNumber || ''`. -/
def streetNumOf (row : Row) : String :=
  jsOrStr (rowGet row "StreetNumberNumeric")
    (jsOrStr (rowGet row "StreetNumber") "")

/-- `row.StreetDirPrefix || ''`. -/
def dirPreOf (row : Row) : String := jsOrStr (rowGet row "StreetDirPrefix") ""

/-- `row.StreetName || ''`. -/
def streetNameOf (row : Row) : String := jsOrStr (rowGet row "StreetName") ""

/-- `row.StreetSuffix || ''`. -/
def suffixOf (row : Row) : String := jsOrStr (rowGet row "StreetSuffix") ""

/-- `row.City || ''`. -/
def cityOf (row : Row) : String := jsOrStr (rowGet row "City") ""

/-- `row.StateOrProvince || 'CA'`. -/
def stateOf (row : Row) : String := jsOrStr (rowGet row "StateOrProvince") "CA"

/-- `row.PostalCode || ''`. -/
def zipOf (row : Row) : String := jsOrStr (rowGet row "PostalCode") ""

/-- The seven raw address components of a row, in source order. -/
def addrComponents (row : Row) : List String :=
  [streetNumOf row, dirPreOf row, streetNameOf row, suffixOf row,
   cityOf row, stateOf row, zipOf row]

/-- `formatAddress(row)`: street line joined with single spaces, then
street line / city / state / zip joined with `", "`; empty components
are dropped by `filter(Boolean)` before each join. -/
def formatAddress (row : Row) : String :=
  joinSep ", "
    (([joinSep " "
        (([streetNumOf row, dirPreOf row, streetNameOf row,
           suffixOf row]).filter (fun s => s ≠ "")),
       cityOf row, stateOf row, zipOf row]).filter (fun s => s ≠ ""))

/-! ### Address normalization and fuzzy lookup -/

/-- JavaScript `\w` character class: ASCII letters, digits, underscore. -/
def isWordChar (c : Char) : Bool := c.isAlphanum || c = '_'

/-- `normalizeAddressLike(str)`: lowercase, replace every character that
is neither a word character nor whitespace by a space, collapse
whitespace runs to single spaces, and trim. -/
def normalizeAddressLike (s : String) : String :=
  let mapped : List Char := s.data.map (fun c =>
    if isWordChar c then c.toLower
    else if c.isWhitespace then c
    else ' ')
  joinSep " " (wordsAux mapped [])
where
  /-- Maximal runs of non-whitespace characters, in order; `cur` holds
  the reversed characters of the word in progress. -/
  wordsAux : List Char → List Char → List String
    | [], cur => if cur = [] then [] else [⟨cur.reverse⟩]
    | c :: t, cur =>
      if c.isWhitespace then
        if cur = [] then wordsAux t []
        else ⟨cur.reverse⟩ :: wordsAux t []
      else wordsAux t (c :: cur)

/-! ### Field resolution (`getColumnNameFromUserField`) -/

/-- The fixed friendly-name synonym table; `none` is the null sentinel
used for the virtual "address" pseudo-field. -/
def synonyms : List (String × Option String) :=
  [("address", none),
   ("beds", some "BedroomsTotal"),
   ("bedrooms", some "BedroomsTotal"),
   ("baths", some "BathroomsTotalInteger"),
   ("bathrooms", some "BathroomsTotalInteger"),
   ("price", some "ListPrice"),
   ("current price", some "CurrentPrice"),
   ("dom", some "DaysOnMarket"),
   ("days on market", some "DaysOnMarket"),
   ("cdom", some "CumulativeDaysOnMarket"),
   ("cumulative days on market", some "CumulativeDaysOnMarket"),
   ("zipcode", some "PostalCode"),
   ("zip code", some "PostalCode"),
   ("postal code", some "PostalCode"),
   ("zip", some "PostalCode"),
   ("sqft", some "LivingArea"),
   ("square footage", some "LivingArea"),
   ("description", some "PublicRemarks"),
   ("remarks", some "PublicRemarks"),
   ("loan terms", some "ListingTerms"),
   ("financing", some "ListingTerms"),
   ("high school district", some "HighSchoolDistrict"),
   ("year built", some "YearBuilt")]

/-- `getColumnNameFromUserField(userField)`: resolve a friendly field
against the loaded column set.  Empty input is falsy and yields null;
then exact match, synonym table (whose value may itself be the null
sentinel), case-insensitive match, substring match, in that order. -/
def getColumnNameFromUserField (cols : List String) (userField : String) :
    Option String :=
  if userField = "" then none
  else if cols.contains (jsTrim userField) then some (jsTrim userField)
  else
    match synonyms.lookup (jsToLower (jsTrim userField)) with
    | some v => v
    | none =>
      match cols.find?
          (fun c => jsToLower c = jsToLower (jsTrim userField)) with
      | some c => some c
      | none =>
        cols.find?
          (fun c => strIncludes (jsToLower c) (jsToLower (jsTrim userField)))

/-- Specification stage 1: exact, case-sensitive match. -/
def stageExact (cols : List String) (f : String) : Option (Option String) :=
  if cols.contains f then some (some f) else none

/-- Specification stage 2: the synonym table; the produced value may
itself be the null sentinel. -/
def stageSynonym (f : String) : Option (Option String) :=
  synonyms.lookup (jsToLower f)

/-- Specification stage 3: case-insensitive exact match. -/
def stageCI (cols : List String) (f : String) : Option (Option String) :=
  (cols.find? (fun c => jsToLower c = jsToLower f)).map some

/-- Specification stage 4: first column containing the field as a
substring, case-insensitively. -/
def stageSubstr (cols : List String) (f : String) : Option (Option String) :=
  (cols.find? (fun c => strIncludes (jsToLower c) (jsToLower f))).map some

/-- Reference cascade written from the specification's wording: try
exact match, then the synonym table, then a case-insensitive match,
then a substring match, each stage consulted only if the previous one
produced nothing (the synonym stage may produce the null sentinel). -/
def resolveStages (cols : List String) (userField : String) :
    Option String :=
  if userField = "" then none
  else
    match (((stageExact cols (jsTrim userField)).orElse
        (fun _ => stageSynonym (jsTrim userField))).orElse
        (fun _ => stageCI cols (jsTrim userField))).orElse
        (fun _ => stageSubstr cols (jsTrim userField)) with
    | some v => v
    | none => none

/-! ### Per-field display (`getValue`) -/

/-- Grouped-digit rendering of a natural number (groups of three,
separated by commas), as in `Number.prototype.toLocaleString`. -/
def groupDigits (n : Nat) : String :=
  let ds := (toString n).data
  ⟨(go ds.reverse).reverse⟩
where
  go : List Char → List Char
    | a :: b :: c :: d :: rest => a :: b :: c :: ',' :: go (d :: rest)
    | l => l

/-- `num.toLocaleString()` for the embedded values: grouped integer
part and the fraction digits with trailing zeros stripped (JavaScript
caps locale fraction digits at three and rounds; values here come from
decimal CSV text, and no claim under verification exercises a fraction
longer than three digits). -/
def jsLocaleString (n : JsNum) : String :=
  let sign := if n.num < 0 then "-" else ""
  let a := n.num.natAbs
  let ipart := a / 10 ^ n.scale
  let fdigits : List Char :=
    (((List.replicate (n.scale - (natDigits (a % 10 ^ n.scale)).length) '0' ++
      natDigits (a % 10 ^ n.scale)).take 3).reverse.dropWhile
        (fun c => c = '0')).reverse
  if fdigits = [] then sign ++ groupDigits ipart
  else sign ++ groupDigits ipart ++ "." ++ String.mk fdigits

/-- `getValue(row, userField)`: render one field of a row, with the
virtual address pseudo-field, currency formatting for the price
columns, and unit formatting for the numeric columns. -/
def getValue (cols : List String) (row : Row) (userField : String) :
    String :=
  match getColumnNameFromUserField cols userField with
  | none =>
    if jsToLower userField = "address" then formatAddress row
    else
      match rowGet row userField with
      | some v => v
      | none => ""
  | some colName =>
    if colName = "ListPrice" ∨ colName = "CurrentPrice" ∨
        colName = "ClosePrice" then
      let raw := (rowGet row colName).getD ""
      if raw = "" then ""
      else
        match jsStrToNum raw with
        | none => raw
        | some q => "$" ++ jsLocaleString q
    else if colName = "BedroomsTotal" ∨ colName = "BathroomsTotalInteger" ∨
        colName = "LivingArea" then
      let raw := (rowGet row colName).getD ""
      if raw = "" then ""
      else
        match jsStrToNum raw with
        | none => raw
        | some q =>
          if colName = "LivingArea" then jsLocaleString q ++ " sq ft"
          else jsNumToString q
    else (rowGet row colName).getD ""

/-! ### Filter engine (`applyFilter`, `filterRows`) -/

/-- A planner filter predicate `{ column, op, value }`. -/
structure Filter where
  column : String
  op : String
  value : JsValue
deriving DecidableEq

/-- `applyFilter(row, filter)`: fail-closed on an unresolved (or falsy)
column name; string operators compare lowercased text; numeric
operators fail when either side coerces to NaN; `exists`/`not_exists`
test the trimmed cell; any other operator passes. -/
def applyFilter (cols : List String) (row : Row) (f : Filter) : Bool :=
  match getColumnNameFromUserField cols f.column with
  | none => false
  | some colName =>
    if colName = "" then false
    else
      let raw := rowGet row colName
      let val := raw.getD ""
      let numVal := jsNumOfCell raw
      let numTarget := jsNumOfValue f.value
      if f.op = "eq" then
        jsToLower val = jsToLower (jsStringOfValue f.value)
      else if f.op = "neq" then
        jsToLower val ≠ jsToLower (jsStringOfValue f.value)
      else if f.op = "contains" then
        strIncludes (jsToLower val) (jsToLower (jsStringOfValue f.value))
      else if f.op = "not_contains" then
        ¬ strIncludes (jsToLower val) (jsToLower (jsStringOfValue f.value))
      else if f.op = "gt" then
        match numVal, numTarget with
        | some a, some b => JsNum.ltb b a
        | _, _ => false
      else if f.op = "ge" then
        match numVal, numTarget with
        | some a, some b => JsNum.leb b a
        | _, _ => false
      else if f.op = "lt" then
        match numVal, numTarget with
        | some a, some b => JsNum.ltb a b
        | _, _ => false
      else if f.op = "le" then
        match numVal, numTarget with
        | some a, some b => JsNum.leb a b
        | _, _ => false
      else if f.op = "exists" then jsTrim val ≠ ""
      else if f.op = "not_exists" then jsTrim val = ""
      else true

/-- The in-memory table: loaded rows plus the column set. -/
structure Store where
  rows : List Row
  cols : List String

/-- `filterRows(filters)`: a missing (`none`) or empty predicate list
returns all rows; otherwise keep the rows on which every predicate
passes. -/
def filterRows (st : Store) (filters : Option (List Filter)) : List Row :=
  match filters with
  | none => st.rows
  | some fs =>
    if fs.length = 0 then st.rows
    else st.rows.filter (fun row => fs.all (fun f => applyFilter st.cols row f))

/-! ### Conversation state and list/detail resolution -/

/-- One entry of the last produced list: `{ rowIndex, displayAddress }`. -/
structure ListEntry where
  rowIndex : Nat
  displayAddress : String
deriving DecidableEq

/-- The most recently resolved single listing:
`{ rowIndex, displayAddress, row }`.  The `row` field is an `Option`
because `ensureListingFromIndex` stores whatever `mlsRows[rowIndex]`
yields, which is `undefined` when the index is out of range. -/
structure Listing where
  rowIndex : Nat
  displayAddress : String
  row : Option Row
deriving DecidableEq

/-- The process-wide mutable conversation state. -/
structure ChatState where
  lastList : List ListEntry
  lastListing : Option Listing
deriving DecidableEq

/-- Conversation state at process start: no list, no last listing. -/
def initialState : ChatState := ⟨[], none⟩

/-- Accumulator of the fuzzy address scan:
the best match so far, with its normalized address. -/
structure BestMatch where
  rowIndex : Nat
  row : Row
  addr : String
  addrNorm : String
deriving DecidableEq

/-- The `forEach` body of `findListingByAddressLike`: scan indexed rows,
skipping rows whose normalized address is empty, keeping the first row
whose normalized address matches (substring in either direction) and
replacing it only on a strictly shorter normalized address. -/
def findAux (textNorm : String) :
    List (Nat × Row) → Option BestMatch → Option BestMatch
  | [], best => best
  | (i, row) :: rest, best =>
    let addr := formatAddress row
    let addrNorm := normalizeAddressLike addr
    if addrNorm = "" then findAux textNorm rest best
    else if strIncludes textNorm addrNorm || strIncludes addrNorm textNorm then
      match best with
      | none => findAux textNorm rest (some ⟨i, row, addr, addrNorm⟩)
      | some b =>
        if addrNorm.length < b.addrNorm.length then
          findAux textNorm rest (some ⟨i, row, addr, addrNorm⟩)
        else findAux textNorm rest (some b)
    else findAux textNorm rest best

/-- `findListingByAddressLike(text)`: falsy input yields null; otherwise
normalize the text and scan every row, returning the best match as
`{ rowIndex, row, displayAddress }`. -/
def findListingByAddressLike (st : Store) (text : String) :
    Option (Nat × Row × String) :=
  if text = "" then none
  else
    match findAux (normalizeAddressLike text) st.rows.enum none with
    | none => none
    | some b => some (b.rowIndex, b.row, b.addr)

/-- The state effect of a successful address resolution in the request
handler: `lastListing = listing` (no state change on a miss). -/
def resolveByAddress (st : Store) (s : ChatState) (text : String) :
    ChatState :=
  match findListingByAddressLike st text with
  | none => s
  | some (i, row, addr) => { s with lastListing := some ⟨i, addr, some row⟩ }

/-- JavaScript `lastList[index - 1]` with a JavaScript number index:
out-of-range (including negative) access yields `undefined`. -/
def listGetJs (l : List ListEntry) (i : Int) : Option ListEntry :=
  if 0 ≤ i then l.get? i.toNat else none

/-- `ensureListingFromIndex(index)`: error strings for a missing list or
a missing entry; on success fetch `mlsRows[item.rowIndex]`, compute the
display address (falling back to `formatAddress(row)` when the snapshot
has none), update `lastListing`, and return the row and address.  The
outer `Option` models the one reachable runtime exception: `none` is
the `TypeError` thrown by `formatAddress(undefined)` when the snapshot
has no display address and the row index is out of range. -/
def ensureListingFromIndex (st : Store) (s : ChatState) (index : Int) :
    Option (Except String (Option Row × String) × ChatState) :=
  if s.lastList.length = 0 then
    some (.error "I do not have a recent list to pull index numbers from.", s)
  else
    match listGetJs s.lastList (index - 1) with
    | none =>
      some (.error ("I do not have a listing #" ++ toString index ++
        " in the last list."), s)
    | some item =>
      let rowOpt := st.rows.get? item.rowIndex
      let addrOpt : Option String :=
        if item.displayAddress ≠ "" then some item.displayAddress
        else rowOpt.map formatAddress
      match addrOpt with
      | none => none
      | some displayAddress =>
        some (.ok (rowOpt, displayAddress),
          { s with lastListing := some ⟨item.rowIndex, displayAddress, rowOpt⟩ })

/-- JavaScript `limit || 100`: a missing or zero limit falls back to
the default cap of 100 entries. -/
def jsLimit (limit : Option Nat) : Nat :=
  match limit with
  | none => 100
  | some n => if n = 0 then 100 else n

/-- The state effect of `formatList`: replace the last list wholesale
with `(mlsRows.indexOf(row), formatAddress(row))` snapshots of the
first `limit || 100` rows. -/
def formatListState (st : Store) (s : ChatState) (rows : List Row)
    (limit : Option Nat) : ChatState :=
  { s with lastList := ((rows.take (jsLimit limit)).map
      (fun row => ListEntry.mk (jsIndexOf st.rows row) (formatAddress row))) }

/-- The reply text of `formatList`: a zero-match sentence, or the
numbered lines, each with the synthesized address and any requested
non-empty fields. -/
def formatListReply (st : Store) (rows : List Row)
    (fields : Option (List String)) (limit : Option Nat) : String :=
  let limited := rows.take (jsLimit limit)
  if limited.length = 0 then
    "There are 0 listings that match your criteria."
  else
    let showFields : List String :=
      match fields with
      | none => []
      | some fs => if fs.length ≠ 0 then fs else []
    let lines := limited.enum.map (fun p =>
      let addr := formatAddress p.2
      if showFields.length = 0 then
        "#" ++ toString (p.1 + 1) ++ " " ++ addr
      else
        let parts := showFields.foldl (fun acc f =>
          if jsToLower f = "address" then acc
          else
            let val := getValue st.cols p.2 f
            if val = "" then acc else acc ++ [f ++ ": " ++ val]) []
        let extra :=
          if parts.length ≠ 0 then " — " ++ joinSep " | " parts else ""
        "#" ++ toString (p.1 + 1) ++ " " ++ addr ++ extra)
    "Here are up to " ++ toString limited.length ++
      " matching listings:\n" ++ joinSep "\n" lines

/-- `formatList(rows, fields, limit)`: the reply text paired with the
replaced conversation state (the JavaScript function assigns the
module-level `lastList` and returns the text). -/
def formatList (st : Store) (s : ChatState) (rows : List Row)
    (fields : Option (List String)) (limit : Option Nat) :
    String × ChatState :=
  (formatListReply st rows fields limit, formatListState st s rows limit)

/-! ## Helper lemmas -/

/-- A successful association-list lookup comes from a list member. -/
theorem lookup_mem_of_eq_some {k : String} {v : Option String} :
    ∀ {l : List (String × Option String)},
      l.lookup k = some v → (k, v) ∈ l := by
  intro l
  induction l with
  | nil => simp [List.lookup]
  | cons p t ih =>
    intro h
    rw [List.lookup] at h
    by_cases hk : k == p.1
    · rw [hk] at h
      cases h
      have := eq_of_beq hk
      subst this
      exact List.mem_cons_self _ _
    · rw [Bool.not_eq_true] at hk
      rw [hk] at h
      exact List.mem_cons_of_mem _ (ih h)

/-- Every real target of the synonym table is a nonempty column name. -/
theorem synonyms_targets_ne_empty :
    ∀ p ∈ synonyms, ∀ c, p.2 = some c → c ≠ "" := by decide

/-- When the column set has no empty name, a resolved column name is
nonempty (the exact, case-insensitive and substring stages return set
members, and the synonym stage returns fixed nonempty names). -/
theorem resolve_ne_empty {cols : List String} {userField c : String}
    (hcols : "" ∉ cols)
    (h : getColumnNameFromUserField cols userField = some c) : c ≠ "" := by
  unfold getColumnNameFromUserField at h
  by_cases hu : userField = ""
  · simp [hu] at h
  · rw [if_neg hu] at h
    by_cases hex : cols.contains (jsTrim userField)
    · rw [if_pos hex] at h
      cases h
      intro hc
      exact hcols (hc ▸ (List.mem_of_elem_eq_true hex))
    · rw [if_neg hex] at h
      cases hsyn : synonyms.lookup (jsToLower (jsTrim userField)) with
      | some v =>
        rw [hsyn] at h
        cases h
        exact synonyms_targets_ne_empty _ (lookup_mem_of_eq_some hsyn) _ rfl
      | none =>
        rw [hsyn] at h
        cases hci : cols.find? (fun d => jsToLower d = jsToLower (jsTrim userField)) with
        | some d =>
          rw [hci] at h
          cases h
          intro hc
          exact hcols (hc ▸ List.mem_of_find?_eq_some hci)
        | none =>
          rw [hci] at h
          intro hc
          exact hcols (hc ▸ List.mem_of_find?_eq_some h)


/-! ## Claim C1: numeric operators fail closed on coercion failure -/

/-- C1: for every row and every filter predicate with operator `gt`,
`ge`, `lt` or `le`, if coercing the resolved cell value or the
predicate value to a number fails (NaN), `applyFilter` returns `false`
— the row is excluded.  `applyFilter` is a total Boolean function of
its arguments (it cannot throw), so a row whose cell is non-numeric
text is never included by a numeric operator. -/
theorem applyFilter_numeric_nan_excludes
    (cols : List String) (row : Row) (f : Filter)
    (hop : f.op = "gt" ∨ f.op = "ge" ∨ f.op = "lt" ∨ f.op = "le")
    (hnan : (∀ c, getColumnNameFromUserField cols f.column = some c →
        jsNumOfCell (rowGet row c) = none) ∨ jsNumOfValue f.value = none) :
    applyFilter cols row f = false := by
  unfold applyFilter
  cases hres : getColumnNameFromUserField cols f.column with
  | none => rfl
  | some c =>
    simp only
    by_cases hc : c = ""
    · rw [if_pos hc]
    · rw [if_neg hc]
      have hcell : jsNumOfCell (rowGet row c) = none ∨
          jsNumOfValue f.value = none := by
        rcases hnan with h | h
        · exact Or.inl (h c hres)
        · exact Or.inr h
      rcases hop with h | h | h | h <;> rw [h] <;> simp only <;>
        rcases hcell with h2 | h2 <;> rw [h2] <;>
          first
          | (cases jsNumOfValue f.value <;> rfl)
          | (cases jsNumOfCell (rowGet row c) <;> rfl)

/-- C1 witness: a row whose `BedroomsTotal` cell is the non-numeric
text "three" is excluded by `beds gt 2`. -/
theorem applyFilter_numeric_nan_excludes_witness :
    applyFilter ["BedroomsTotal"] [("BedroomsTotal", "three")]
      (Filter.mk "beds" "gt" (JsValue.num (JsNum.mk 2 0))) = false :=
  applyFilter_numeric_nan_excludes _ _ _ (Or.inl rfl)
    (Or.inl (by decide))

/-! ## Claim C2: fail-closed column miss, permissive unknown operator -/

/-- C2: an unresolved predicate column makes `applyFilter` return
`false` for every row (fail-closed), and a resolved column with an
operator outside the ten recognized ones makes it return `true` for
every row (permissive pass); both are total, never raising an error.
The column set is assumed free of the empty column name, which the
loader guarantees (`csv-parse` with `trim: true` and `columns: true`).
-/
theorem applyFilter_default_policies
    (cols : List String) (row : Row) (f : Filter)
    (hcols : "" ∉ cols) :
    (getColumnNameFromUserField cols f.column = none →
      applyFilter cols row f = false) ∧
    ((∃ c, getColumnNameFromUserField cols f.column = some c) →
      f.op ∉ ["eq", "neq", "contains", "not_contains", "gt", "ge", "lt",
        "le", "exists", "not_exists"] →
      applyFilter cols row f = true) := by
  constructor
  · intro h
    unfold applyFilter
    rw [h]
  · rintro ⟨c, hc⟩ hop
    simp only [List.mem_cons, List.not_mem_nil, or_false] at hop
    push_neg at hop
    obtain ⟨h1, h2, h3, h4, h5, h6, h7, h8, h9, h10⟩ := hop
    unfold applyFilter
    rw [hc]
    simp only
    rw [if_neg (resolve_ne_empty hcols hc)]
    rw [if_neg h1, if_neg h2, if_neg h3, if_neg h4, if_neg h5, if_neg h6,
      if_neg h7, if_neg h8, if_neg h9, if_neg h10]

/-- C2 witness: an unresolvable column excludes a row, and a resolved
column with the unknown operator "between" includes it. -/
theorem applyFilter_default_policies_witness :
    applyFilter ["City"] [("City", "Gardena")]
      (Filter.mk "qqq" "eq" (JsValue.str "x")) = false ∧
    applyFilter ["City"] [("City", "Gardena")]
      (Filter.mk "City" "between" (JsValue.str "x")) = true :=
  ⟨(applyFilter_default_policies ["City"] [("City", "Gardena")]
      (Filter.mk "qqq" "eq" (JsValue.str "x")) (by decide)).1 (by decide),
   (applyFilter_default_policies ["City"] [("City", "Gardena")]
      (Filter.mk "City" "between" (JsValue.str "x")) (by decide)).2
     ⟨"City", by decide⟩ (by decide)⟩

/-! ## Claim C9: the virtual address pseudo-field is never filterable -/

/-- C9: a filter predicate whose column reaches the synonym table's
null sentinel (the friendly field "address", for a column set without a
literal such column) is rejected by `applyFilter` for every row, every
operator and every value, even though `getValue` renders the same
friendly field as the synthesized address: the virtual address
pseudo-field is displayable but never filterable. -/
theorem address_pseudofield_not_filterable
    (cols : List String) (row : Row) (userField op : String) (v : JsValue)
    (hne : userField ≠ "")
    (hnotcol : ¬ cols.contains (jsTrim userField) = true)
    (hsyn : synonyms.lookup (jsToLower (jsTrim userField)) = some none) :
    applyFilter cols row (Filter.mk userField op v) = false ∧
    ("address" ∉ cols → getValue cols row "address" = formatAddress row) := by
  have hres : getColumnNameFromUserField cols userField = none := by
    unfold getColumnNameFromUserField
    rw [if_neg hne, if_neg hnotcol]
    rw [hsyn]
  constructor
  · unfold applyFilter
    rw [hres]
  · intro haddr
    have hres2 : getColumnNameFromUserField cols "address" = none := by
      unfold getColumnNameFromUserField
      rw [if_neg (by decide)]
      have : ¬ cols.contains (jsTrim "address") = true := by
        intro h
        exact haddr (by simpa [jsTrim] using List.mem_of_elem_eq_true h)
      rw [if_neg this]
      rfl
    unfold getValue
    rw [hres2]
    rw [if_pos (by decide)]

/-- C9 witness: with columns `["City"]`, the predicate
`address eq "x"` excludes a concrete row for which `getValue` still
renders the synthesized address. -/
theorem address_pseudofield_not_filterable_witness :
    applyFilter ["City"] [("City", "Gardena")]
      (Filter.mk "address" "eq" (JsValue.str "x")) = false ∧
    getValue ["City"] [("City", "Gardena")] "address" = "Gardena, CA" := by
  have h := address_pseudofield_not_filterable ["City"]
    [("City", "Gardena")] "address" "eq" (JsValue.str "x")
    (by decide) (by decide) (by decide)
  exact ⟨h.1, by rw [h.2 (by decide)]; decide⟩



/-! ## Claim C6: filterRows is a pure ordered AND-filter -/

/-- C6: `filterRows` returns exactly the rows on which every predicate
passes (logical AND), in store order (the result is a sublist of the
store); a missing or empty predicate list returns all rows unfiltered;
and the operation is idempotent — filtering an already-filtered store
with the same predicates changes nothing (so re-running on the same
store and predicates yields the same rows in the same order). -/
theorem filterRows_and_ordered_idempotent
    (st : Store) (fs : List Filter) :
    (∀ r, r ∈ filterRows st (some fs) ↔
      r ∈ st.rows ∧ ∀ f ∈ fs, applyFilter st.cols r f = true) ∧
    (filterRows st (some fs)).Sublist st.rows ∧
    filterRows st none = st.rows ∧
    filterRows st (some []) = st.rows ∧
    filterRows (Store.mk (filterRows st (some fs)) st.cols) (some fs) =
      filterRows st (some fs) := by
  by_cases hfs : fs.length = 0
  · have hnil : fs = [] := List.length_eq_zero.mp hfs
    subst hnil
    refine ⟨?_, ?_, rfl, rfl, rfl⟩
    · intro r
      simp [filterRows]
    · simp [filterRows]
  · have hunf : filterRows st (some fs) =
        st.rows.filter (fun row => fs.all (fun f => applyFilter st.cols row f)) := by
      show (if fs.length = 0 then st.rows
        else st.rows.filter
          (fun row => fs.all (fun f => applyFilter st.cols row f))) =
        st.rows.filter (fun row => fs.all (fun f => applyFilter st.cols row f))
      rw [if_neg hfs]
    refine ⟨?_, ?_, rfl, rfl, ?_⟩
    · intro r
      rw [hunf, List.mem_filter, List.all_eq_true]
    · rw [hunf]
      exact List.filter_sublist _
    · have hunf2 : filterRows (Store.mk (filterRows st (some fs)) st.cols)
          (some fs) = (filterRows st (some fs)).filter
            (fun row => fs.all (fun f => applyFilter st.cols row f)) := by
        show (if fs.length = 0 then filterRows st (some fs)
          else (filterRows st (some fs)).filter
            (fun row => fs.all (fun f => applyFilter st.cols row f))) =
          (filterRows st (some fs)).filter
            (fun row => fs.all (fun f => applyFilter st.cols row f))
        rw [if_neg hfs]
      rw [hunf2, hunf]
      exact List.filter_eq_self.mpr (fun a ha => (List.mem_filter.mp ha).2)

/-- C6 witness: a two-row store filtered by `beds ge 3` keeps exactly
the qualifying row, and the conjuncts of the claim hold there. -/
theorem filterRows_and_ordered_idempotent_witness :
    filterRows (Store.mk [[("BedroomsTotal", "3")], [("BedroomsTotal", "2")]]
        ["BedroomsTotal"]) (some [Filter.mk "beds" "ge" (JsValue.num (JsNum.mk 3 0))]) =
      [[("BedroomsTotal", "3")]] ∧
    ([[("BedroomsTotal", "3")]] : List Row) ∈
      ({l | l.Sublist [[("BedroomsTotal", "3")], [("BedroomsTotal", "2")]]} :
        Set (List Row)) := by
  have h := filterRows_and_ordered_idempotent
    (Store.mk [[("BedroomsTotal", "3")], [("BedroomsTotal", "2")]]
      ["BedroomsTotal"]) [Filter.mk "beds" "ge" (JsValue.num (JsNum.mk 3 0))]
  refine ⟨by decide, ?_⟩
  have := h.2.1
  simp only [Set.mem_setOf_eq]
  have heq : filterRows (Store.mk [[("BedroomsTotal", "3")],
      [("BedroomsTotal", "2")]] ["BedroomsTotal"])
      (some [Filter.mk "beds" "ge" (JsValue.num (JsNum.mk 3 0))]) =
      [[("BedroomsTotal", "3")]] := by decide
  rw [heq] at this
  exact this



/-! ## Claim C3: resolver priority order and the null sentinel -/

/-- C3 counterexample: with the column set `["Address"]`, the friendly
field "address" resolves to null because the synonym table intercepts
it with the null sentinel, even though the later case-insensitive stage
would have matched the column "Address" — so the resolver does not
return null "only when all four stages fail". -/
theorem getColumnNameFromUserField_null_not_only_on_all_fail :
    getColumnNameFromUserField ["Address"] "address" = none ∧
    (["Address"].find?
      (fun c => jsToLower c = jsToLower (jsTrim "address"))) =
        some "Address" := by decide

/-- C3 amended: for a column set of nonempty, trimmed names (as the
loader produces), a friendly field present verbatim is returned
unchanged, short-circuiting the synonym, case-insensitive and
substring stages; the resolver equals the four-stage reference cascade
`resolveStages` built from the specification's wording; and it returns
null exactly when the field is empty, or when the synonym table maps
it to the null sentinel, or when all four stages fail. -/
theorem getColumnNameFromUserField_cascade
    (cols : List String) (userField : String)
    (hcols : ∀ c ∈ cols, c ≠ "" ∧ jsTrim c = c) :
    (userField ∈ cols →
      getColumnNameFromUserField cols userField = some userField) ∧
    getColumnNameFromUserField cols userField =
      resolveStages cols userField ∧
    (getColumnNameFromUserField cols userField = none ↔
      (userField = "" ∨
        (¬ cols.contains (jsTrim userField) = true ∧
          (synonyms.lookup (jsToLower (jsTrim userField)) = some none ∨
            (synonyms.lookup (jsToLower (jsTrim userField)) = none ∧
              cols.find? (fun c =>
                jsToLower c = jsToLower (jsTrim userField)) = none ∧
              cols.find? (fun c =>
                strIncludes (jsToLower c) (jsToLower (jsTrim userField))) =
                  none))))) := by
  refine ⟨?_, ?_, ?_⟩
  · intro hmem
    obtain ⟨hne, htrim⟩ := hcols userField hmem
    unfold getColumnNameFromUserField
    rw [if_neg hne]
    have hcont : cols.contains (jsTrim userField) = true := by
      rw [htrim]
      exact List.elem_eq_true_of_mem hmem
    rw [if_pos hcont, htrim]
  · unfold getColumnNameFromUserField resolveStages
    by_cases hu : userField = ""
    · rw [if_pos hu, if_pos hu]
    · rw [if_neg hu, if_neg hu]
      by_cases hex : cols.contains (jsTrim userField) = true
      · rw [if_pos hex]
        simp only [stageExact, if_pos hex]
        rfl
      · rw [if_neg hex]
        simp only [stageExact, if_neg hex]
        cases hsyn : synonyms.lookup (jsToLower (jsTrim userField)) with
        | some v =>
          simp only [stageSynonym, hsyn]
          rfl
        | none =>
          simp only [stageSynonym, hsyn]
          cases hci : cols.find?
              (fun c => jsToLower c = jsToLower (jsTrim userField)) with
          | some c =>
            simp only [stageCI, hci]
            rfl
          | none =>
            simp only [stageCI, hci]
            cases hsub : cols.find? (fun c =>
                strIncludes (jsToLower c) (jsToLower (jsTrim userField))) with
            | some c =>
              simp only [stageSubstr, hsub]
              rfl
            | none =>
              simp only [stageSubstr, hsub]
              rfl
  · unfold getColumnNameFromUserField
    by_cases hu : userField = ""
    · rw [if_pos hu]
      exact ⟨fun _ => Or.inl hu, fun _ => rfl⟩
    · rw [if_neg hu]
      by_cases hex : cols.contains (jsTrim userField) = true
      · rw [if_pos hex]
        constructor
        · intro h
          exact Option.noConfusion h
        · rintro (h | ⟨hnc, _⟩)
          · exact absurd h hu
          · exact absurd hex hnc
      · rw [if_neg hex]
        cases hsyn : synonyms.lookup (jsToLower (jsTrim userField)) with
        | some v =>
          cases v with
          | some c =>
            constructor
            · intro h
              exact Option.noConfusion h
            · rintro (h | ⟨hnc, hA | ⟨hB, _⟩⟩)
              · exact absurd h hu
              · exact Option.noConfusion (Option.some.inj hA)
              · exact Option.noConfusion hB
          | none =>
            exact ⟨fun _ => Or.inr ⟨hex, Or.inl rfl⟩, fun _ => rfl⟩
        | none =>
          cases hci : cols.find?
              (fun c => jsToLower c = jsToLower (jsTrim userField)) with
          | some c =>
            constructor
            · intro h
              exact Option.noConfusion h
            · rintro (h | ⟨hnc, hA | ⟨hB, hc2, _⟩⟩)
              · exact absurd h hu
              · exact Option.noConfusion hA
              · exact Option.noConfusion hc2
          | none =>
            cases hsub : cols.find? (fun c =>
                strIncludes (jsToLower c) (jsToLower (jsTrim userField))) with
            | some c =>
              constructor
              · intro h
                exact Option.noConfusion h
              · rintro (h | ⟨hnc, hA | ⟨hB, hc2, hs2⟩⟩)
                · exact absurd h hu
                · exact Option.noConfusion hA
                · exact Option.noConfusion hs2
            | none =>
              exact ⟨fun _ => Or.inr ⟨hex, Or.inr ⟨rfl, rfl, rfl⟩⟩,
                fun _ => rfl⟩

/-- C3 amended witness: over the column set
`["BedroomsTotal", "City"]`, the verbatim field "City" is returned
unchanged, the cascade agrees with the reference stages, and "beds"
does not resolve to null. -/
theorem getColumnNameFromUserField_cascade_witness :
    getColumnNameFromUserField ["BedroomsTotal", "City"] "City" =
      some "City" ∧
    getColumnNameFromUserField ["BedroomsTotal", "City"] "beds" =
      resolveStages ["BedroomsTotal", "City"] "beds" := by
  have h1 := getColumnNameFromUserField_cascade ["BedroomsTotal", "City"]
    "City" (by decide)
  have h2 := getColumnNameFromUserField_cascade ["BedroomsTotal", "City"]
    "beds" (by decide)
  exact ⟨h1.1 (by decide), h2.2.1⟩



/-! ## Claim C4: index resolution immediately after a produced list -/

/-- C4: immediately after `formatList` has produced a list of length
`L` from rows of the store, resolving "#N" succeeds for every
`1 ≤ N ≤ L`, returning the row snapshotted at position `N - 1` and
updating Last Listing to that entry; and it returns a descriptive
failure message — never a crash (the result is always `some`, never
the `none` that models a thrown exception) — for `N = 0`, for `N > L`,
and when no list has ever been produced. -/
theorem ensureListing_after_formatList
    (st : Store) (s0 : ChatState) (rows : List Row)
    (fields : Option (List String)) (limit : Option Nat)
    (hrows : ∀ r ∈ rows, r ∈ st.rows) :
    ((formatList st s0 rows fields limit).2.lastList.length =
      (rows.take (jsLimit limit)).length) ∧
    (∀ N : Nat, 1 ≤ N →
      ∀ h : N - 1 < (rows.take (jsLimit limit)).length,
      ensureListingFromIndex st (formatList st s0 rows fields limit).2
          (N : Int) =
        some (Except.ok
            (some ((rows.take (jsLimit limit)).get ⟨N - 1, h⟩),
             formatAddress ((rows.take (jsLimit limit)).get ⟨N - 1, h⟩)),
          ChatState.mk (formatList st s0 rows fields limit).2.lastList
            (some (Listing.mk
              (jsIndexOf st.rows ((rows.take (jsLimit limit)).get ⟨N - 1, h⟩))
              (formatAddress ((rows.take (jsLimit limit)).get ⟨N - 1, h⟩))
              (some ((rows.take (jsLimit limit)).get ⟨N - 1, h⟩)))))) ∧
    (∀ N : Nat, N = 0 ∨ N > (rows.take (jsLimit limit)).length →
      ∃ msg, ensureListingFromIndex st
          (formatList st s0 rows fields limit).2 (N : Int) =
        some (Except.error msg, (formatList st s0 rows fields limit).2)) ∧
    (∀ N : Int, ∃ msg, ensureListingFromIndex st initialState N =
      some (Except.error msg, initialState)) := by
  have hstate : (formatList st s0 rows fields limit).2 =
      formatListState st s0 rows limit := rfl
  have hlen : (formatListState st s0 rows limit).lastList.length =
      (rows.take (jsLimit limit)).length := by
    simp [formatListState]
  refine ⟨by rw [hstate]; exact hlen, ?_, ?_, ?_⟩
  · intro N hN h
    rw [hstate]
    have hr : (rows.take (jsLimit limit)).get ⟨N - 1, h⟩ ∈ st.rows :=
      hrows _ (List.take_subset _ _ (List.get_mem _ _ _))
    have hlenpos : ¬ (formatListState st s0 rows limit).lastList.length = 0 := by
      rw [hlen]
      omega
    unfold ensureListingFromIndex
    rw [if_neg hlenpos]
    have hget : listGetJs (formatListState st s0 rows limit).lastList
        ((N : Int) - 1) =
        some (ListEntry.mk
          (jsIndexOf st.rows ((rows.take (jsLimit limit)).get ⟨N - 1, h⟩))
          (formatAddress ((rows.take (jsLimit limit)).get ⟨N - 1, h⟩))) := by
      unfold listGetJs
      rw [if_pos (by omega)]
      have htn : ((N : Int) - 1).toNat = N - 1 := by omega
      rw [htn]
      simp only [formatListState, List.getElem?_map, List.get?_eq_getElem?]
      rw [List.getElem?_eq_getElem h]
      rfl
    rw [hget]
    simp only
    have hrow : st.rows.get? (jsIndexOf st.rows
        ((rows.take (jsLimit limit)).get ⟨N - 1, h⟩)) =
        some ((rows.take (jsLimit limit)).get ⟨N - 1, h⟩) :=
      get?_jsIndexOf hr
    rw [hrow]
    by_cases haddr : formatAddress ((rows.take (jsLimit limit)).get
        ⟨N - 1, h⟩) = ""
    · rw [if_neg (by simpa using haddr)]
      rfl
    · rw [if_pos (by simpa using haddr)]
  · intro N hN
    rw [hstate]
    by_cases hz : (formatListState st s0 rows limit).lastList.length = 0
    · refine ⟨"I do not have a recent list to pull index numbers from.", ?_⟩
      unfold ensureListingFromIndex
      rw [if_pos hz]
    · refine ⟨"I do not have a listing #" ++ toString ((N : Nat) : Int) ++
        " in the last list.", ?_⟩
      unfold ensureListingFromIndex
      rw [if_neg hz]
      have hnone : listGetJs (formatListState st s0 rows limit).lastList
          ((N : Int) - 1) = none := by
        unfold listGetJs
        rcases hN with h0 | hgt
        · subst h0
          rw [if_neg (by omega)]
        · rw [if_pos (by omega)]
          apply List.get?_eq_none.mpr
          rw [hlen]
          omega
      rw [hnone]
  · intro N
    refine ⟨"I do not have a recent list to pull index numbers from.", ?_⟩
    rfl

/-- C4 witness: after listing a one-row store, "#1" succeeds with the
snapshotted row, "#2" fails with a message, and so does any index when
no list has ever been produced. -/
theorem ensureListing_after_formatList_witness :
    ensureListingFromIndex (Store.mk [[("City", "A")]] ["City"])
        (formatList (Store.mk [[("City", "A")]] ["City"]) initialState
          [[("City", "A")]] none none).2 ((1 : Nat) : Int) =
      some (Except.ok (some [("City", "A")], "A, CA"),
        ChatState.mk (formatList (Store.mk [[("City", "A")]] ["City"])
            initialState [[("City", "A")]] none none).2.lastList
          (some (Listing.mk 0 "A, CA" (some [("City", "A")])))) ∧
    (∃ msg, ensureListingFromIndex (Store.mk [[("City", "A")]] ["City"])
        (formatList (Store.mk [[("City", "A")]] ["City"]) initialState
          [[("City", "A")]] none none).2 ((2 : Nat) : Int) =
      some (Except.error msg,
        (formatList (Store.mk [[("City", "A")]] ["City"]) initialState
          [[("City", "A")]] none none).2)) ∧
    (∃ msg, ensureListingFromIndex (Store.mk [[("City", "A")]] ["City"])
        initialState 7 = some (Except.error msg, initialState)) := by
  have h := ensureListing_after_formatList (Store.mk [[("City", "A")]]
    ["City"]) initialState [[("City", "A")]] none none (by decide)
  refine ⟨?_, h.2.2.1 2 (by decide), h.2.2.2 7⟩
  have h1 := h.2.1 1 (by decide) (by decide)
  exact h1



/-! ## Fuzzy address scan: characterization of `findAux` -/

/-- A row matches the normalized query text when its normalized
synthesized address is nonempty and one side contains the other. -/
def MatchesRow (tn : String) (row : Row) : Prop :=
  normalizeAddressLike (formatAddress row) ≠ "" ∧
  (strIncludes tn (normalizeAddressLike (formatAddress row)) = true ∨
   strIncludes (normalizeAddressLike (formatAddress row)) tn = true)

instance (tn : String) (row : Row) : Decidable (MatchesRow tn row) := by
  unfold MatchesRow
  infer_instance

/-- Length of a row's normalized synthesized address. -/
def nlen (row : Row) : Nat := (normalizeAddressLike (formatAddress row)).length

/-- Invariant of the scan with a current best: the final best is
well-formed, never longer (in normalized length) than the current one,
comes from the current best or from the remaining rows, is minimal
among the remaining matches, and on normalized-length ties has the
smallest row index. -/
theorem findAux_go (tn : String) :
    ∀ (l : List (Nat × Row)) (b0 : BestMatch),
      b0.addr = formatAddress b0.row →
      b0.addrNorm = normalizeAddressLike b0.addr →
      MatchesRow tn b0.row →
      (∀ p ∈ l, b0.rowIndex < p.1) →
      List.Pairwise (fun p q => p.1 < q.1) l →
      ∃ b, findAux tn l (some b0) = some b ∧
        b.addr = formatAddress b.row ∧
        b.addrNorm = normalizeAddressLike b.addr ∧
        MatchesRow tn b.row ∧
        b.addrNorm.length ≤ b0.addrNorm.length ∧
        (b = b0 ∨ ∃ p ∈ l, b.rowIndex = p.1 ∧ b.row = p.2 ∧
          b.addrNorm.length < b0.addrNorm.length) ∧
        (∀ p ∈ l, MatchesRow tn p.2 → b.addrNorm.length ≤ nlen p.2) ∧
        (∀ p ∈ l, MatchesRow tn p.2 → nlen p.2 = b.addrNorm.length →
          b.rowIndex ≤ p.1) := by
  intro l
  induction l with
  | nil =>
    intro b0 ha hn hm _ _
    exact ⟨b0, rfl, ha, hn, hm, Nat.le_refl _, Or.inl rfl,
      fun p hp => absurd hp (List.not_mem_nil p),
      fun p hp => absurd hp (List.not_mem_nil p)⟩
  | cons q rest ih =>
    intro b0 ha hn hm hlt hpw
    obtain ⟨i, row⟩ := q
    have hpw2 : List.Pairwise (fun p q => p.1 < q.1) rest :=
      (List.pairwise_cons.mp hpw).2
    have hheadlt : ∀ p ∈ rest, i < p.1 := (List.pairwise_cons.mp hpw).1
    rw [findAux]
    by_cases han : normalizeAddressLike (formatAddress row) = ""
    · rw [if_pos han]
      obtain ⟨b, hb, h1, h2, h3, h4, h5, h6, h7⟩ :=
        ih b0 ha hn hm (fun p hp => hlt p (List.mem_cons_of_mem _ hp)) hpw2
      refine ⟨b, hb, h1, h2, h3, h4, ?_, ?_, ?_⟩
      · rcases h5 with h | ⟨p, hp, he⟩
        · exact Or.inl h
        · exact Or.inr ⟨p, List.mem_cons_of_mem _ hp, he⟩
      · intro p hp hmp
        rcases List.mem_cons.mp hp with he | hp2
        · exact absurd hmp (by rw [he]; exact fun hc => hc.1 han)
        · exact h6 p hp2 hmp
      · intro p hp hmp hlen
        rcases List.mem_cons.mp hp with he | hp2
        · exact absurd hmp (by rw [he]; exact fun hc => hc.1 han)
        · exact h7 p hp2 hmp hlen
    · rw [if_neg han]
      by_cases hinc : (strIncludes tn (normalizeAddressLike
          (formatAddress row)) ||
          strIncludes (normalizeAddressLike (formatAddress row)) tn) = true
      · rw [if_pos hinc]
        have hmrow : MatchesRow tn row :=
          ⟨han, Bool.or_eq_true_iff.mp hinc⟩
        by_cases hshort : (normalizeAddressLike (formatAddress row)).length <
            b0.addrNorm.length
        · rw [if_pos hshort]
          obtain ⟨b, hb, h1, h2, h3, h4, h5, h6, h7⟩ :=
            ih (BestMatch.mk i row (formatAddress row)
                (normalizeAddressLike (formatAddress row)))
              rfl rfl hmrow hheadlt hpw2
          refine ⟨b, hb, h1, h2, h3, Nat.le_of_lt (Nat.lt_of_le_of_lt h4
            hshort), ?_, ?_, ?_⟩
          · rcases h5 with h | ⟨p, hp, he1, he2, he3⟩
            · exact Or.inr ⟨(i, row), List.mem_cons_self _ _,
                by rw [h], by rw [h], by rw [h]; exact hshort⟩
            · exact Or.inr ⟨p, List.mem_cons_of_mem _ hp, he1, he2,
                Nat.lt_trans he3 hshort⟩
          · intro p hp hmp
            rcases List.mem_cons.mp hp with he | hp2
            · rw [he]
              exact h4
            · exact h6 p hp2 hmp
          · intro p hp hmp hlen
            rcases List.mem_cons.mp hp with he | hp2
            · rcases h5 with h | ⟨p2, hp2, he1, he2, he3⟩
              · rw [h, he]
              · rw [he] at hlen
                unfold nlen at hlen
                dsimp only at hlen he3
                omega
            · exact h7 p hp2 hmp hlen
        · rw [if_neg hshort]
          obtain ⟨b, hb, h1, h2, h3, h4, h5, h6, h7⟩ :=
            ih b0 ha hn hm (fun p hp => hlt p (List.mem_cons_of_mem _ hp))
              hpw2
          have hge : b0.addrNorm.length ≤
              (normalizeAddressLike (formatAddress row)).length :=
            Nat.le_of_not_lt hshort
          refine ⟨b, hb, h1, h2, h3, h4, ?_, ?_, ?_⟩
          · rcases h5 with h | ⟨p, hp, he⟩
            · exact Or.inl h
            · exact Or.inr ⟨p, List.mem_cons_of_mem _ hp, he⟩
          · intro p hp hmp
            rcases List.mem_cons.mp hp with he | hp2
            · rw [he]
              exact Nat.le_trans h4 hge
            · exact h6 p hp2 hmp
          · intro p hp hmp hlen
            rcases List.mem_cons.mp hp with he | hp2
            · have hb0 : b = b0 := by
                rcases h5 with h | ⟨p2, hp2, _, _, he3⟩
                · exact h
                · rw [he] at hlen
                  unfold nlen at hlen
                  dsimp only at hlen
                  omega
              rw [hb0, he]
              exact Nat.le_of_lt (hlt (i, row) (List.mem_cons_self _ _))
            · exact h7 p hp2 hmp hlen
      · rw [if_neg hinc]
        obtain ⟨b, hb, h1, h2, h3, h4, h5, h6, h7⟩ :=
          ih b0 ha hn hm (fun p hp => hlt p (List.mem_cons_of_mem _ hp)) hpw2
        refine ⟨b, hb, h1, h2, h3, h4, ?_, ?_, ?_⟩
        · rcases h5 with h | ⟨p, hp, he⟩
          · exact Or.inl h
          · exact Or.inr ⟨p, List.mem_cons_of_mem _ hp, he⟩
        · intro p hp hmp
          rcases List.mem_cons.mp hp with he | hp2
          · refine absurd hmp ?_
            rw [he]
            intro hc
            exact absurd (Bool.or_eq_true_iff.mpr hc.2) (by simpa using hinc)
          · exact h6 p hp2 hmp
        · intro p hp hmp hlen
          rcases List.mem_cons.mp hp with he | hp2
          · refine absurd hmp ?_
            rw [he]
            intro hc
            exact absurd (Bool.or_eq_true_iff.mpr hc.2) (by simpa using hinc)
          · exact h7 p hp2 hmp hlen



/-- Characterization of the scan started with no current best: it
returns nothing exactly when no row matches, and otherwise returns a
well-formed entry of the scanned list whose normalized address length
is minimal, earliest on ties. -/
theorem findAux_start (tn : String) :
    ∀ l : List (Nat × Row),
      List.Pairwise (fun p q => p.1 < q.1) l →
      (findAux tn l none = none ↔ ∀ p ∈ l, ¬ MatchesRow tn p.2) ∧
      (∀ b, findAux tn l none = some b →
        b.addr = formatAddress b.row ∧
        b.addrNorm = normalizeAddressLike b.addr ∧
        MatchesRow tn b.row ∧
        (∃ p ∈ l, b.rowIndex = p.1 ∧ b.row = p.2) ∧
        (∀ p ∈ l, MatchesRow tn p.2 → b.addrNorm.length ≤ nlen p.2) ∧
        (∀ p ∈ l, MatchesRow tn p.2 → nlen p.2 = b.addrNorm.length →
          b.rowIndex ≤ p.1)) := by
  intro l
  induction l with
  | nil =>
    intro _
    exact ⟨⟨fun _ p hp => absurd hp (List.not_mem_nil p), fun _ => rfl⟩,
      fun b hb => Option.noConfusion hb⟩
  | cons q rest ih =>
    intro hpw
    obtain ⟨i, row⟩ := q
    have hpw2 : List.Pairwise (fun p q => p.1 < q.1) rest :=
      (List.pairwise_cons.mp hpw).2
    have hheadlt : ∀ p ∈ rest, i < p.1 := (List.pairwise_cons.mp hpw).1
    rw [findAux]
    by_cases han : normalizeAddressLike (formatAddress row) = ""
    · rw [if_pos han]
      obtain ⟨hiff, hsome⟩ := ih hpw2
      constructor
      · rw [hiff]
        constructor
        · intro h p hp
          rcases List.mem_cons.mp hp with he | hp2
          · rw [he]
            exact fun hc => hc.1 han
          · exact h p hp2
        · intro h p hp
          exact h p (List.mem_cons_of_mem _ hp)
      · intro b hb
        obtain ⟨h1, h2, h3, ⟨p, hp, he⟩, h5, h6⟩ := hsome b hb
        refine ⟨h1, h2, h3, ⟨p, List.mem_cons_of_mem _ hp, he⟩, ?_, ?_⟩
        · intro p2 hp2 hmp
          rcases List.mem_cons.mp hp2 with he2 | hp3
          · exact absurd hmp (by rw [he2]; exact fun hc => hc.1 han)
          · exact h5 p2 hp3 hmp
        · intro p2 hp2 hmp hlen
          rcases List.mem_cons.mp hp2 with he2 | hp3
          · exact absurd hmp (by rw [he2]; exact fun hc => hc.1 han)
          · exact h6 p2 hp3 hmp hlen
    · rw [if_neg han]
      by_cases hinc : (strIncludes tn (normalizeAddressLike
          (formatAddress row)) ||
          strIncludes (normalizeAddressLike (formatAddress row)) tn) = true
      · rw [if_pos hinc]
        have hmrow : MatchesRow tn row := ⟨han, Bool.or_eq_true_iff.mp hinc⟩
        obtain ⟨b, hb, h1, h2, h3, h4, h5, h6, h7⟩ :=
          findAux_go tn rest
            (BestMatch.mk i row (formatAddress row)
              (normalizeAddressLike (formatAddress row)))
            rfl rfl hmrow hheadlt hpw2
        constructor
        · rw [hb]
          constructor
          · intro h
            exact Option.noConfusion h
          · intro h
            exact absurd hmrow (h (i, row) (List.mem_cons_self _ _))
        · intro b2 hb2
          rw [hb] at hb2
          cases hb2
          refine ⟨h1, h2, h3, ?_, ?_, ?_⟩
          · rcases h5 with h | ⟨p, hp, he1, he2, _⟩
            · exact ⟨(i, row), List.mem_cons_self _ _, by rw [h], by rw [h]⟩
            · exact ⟨p, List.mem_cons_of_mem _ hp, he1, he2⟩
          · intro p hp hmp
            rcases List.mem_cons.mp hp with he | hp2
            · rw [he]
              exact h4
            · exact h6 p hp2 hmp
          · intro p hp hmp hlen
            rcases List.mem_cons.mp hp with he | hp2
            · rcases h5 with h | ⟨p2, hp2, he1, he2, he3⟩
              · rw [h, he]
              · rw [he] at hlen
                unfold nlen at hlen
                dsimp only at hlen he3
                omega
            · exact h7 p hp2 hmp hlen
      · rw [if_neg hinc]
        obtain ⟨hiff, hsome⟩ := ih hpw2
        have hnm : ¬ MatchesRow tn row := by
          intro hc
          exact absurd (Bool.or_eq_true_iff.mpr hc.2) (by simpa using hinc)
        constructor
        · rw [hiff]
          constructor
          · intro h p hp
            rcases List.mem_cons.mp hp with he | hp2
            · rw [he]
              exact hnm
            · exact h p hp2
          · intro h p hp
            exact h p (List.mem_cons_of_mem _ hp)
        · intro b hb
          obtain ⟨h1, h2, h3, ⟨p, hp, he⟩, h5, h6⟩ := hsome b hb
          refine ⟨h1, h2, h3, ⟨p, List.mem_cons_of_mem _ hp, he⟩, ?_, ?_⟩
          · intro p2 hp2 hmp
            rcases List.mem_cons.mp hp2 with he2 | hp3
            · exact absurd hmp (by rw [he2]; exact hnm)
            · exact h5 p2 hp3 hmp
          · intro p2 hp2 hmp hlen
            rcases List.mem_cons.mp hp2 with he2 | hp3
            · exact absurd hmp (by rw [he2]; exact hnm)
            · exact h6 p2 hp3 hmp hlen

/-- Entry indices of `enumFrom` are at least the starting index. -/
theorem mem_enumFrom_fst_le :
    ∀ {t : List Row} {m : Nat} {p : Nat × Row},
      p ∈ List.enumFrom m t → m ≤ p.1 := by
  intro t
  induction t with
  | nil =>
    intro m p hp
    cases hp
  | cons x rest ih =>
    intro m p hp
    rcases List.mem_cons.mp hp with he | hp2
    · rw [he]
    · exact Nat.le_of_succ_le (ih hp2)

/-- `enumFrom` carries strictly increasing indices. -/
theorem enumFrom_pairwise :
    ∀ (t : List Row) (m : Nat),
      List.Pairwise (fun p q => p.1 < q.1) (List.enumFrom m t) := by
  intro t
  induction t with
  | nil =>
    intro m
    exact List.Pairwise.nil
  | cons x rest ih =>
    intro m
    rw [List.enumFrom]
    exact List.pairwise_cons.mpr
      ⟨fun p hp => Nat.lt_of_succ_le (mem_enumFrom_fst_le hp), ih (m + 1)⟩

/-- `enum` carries strictly increasing indices. -/
theorem enum_pairwise (t : List Row) :
    List.Pairwise (fun p q => p.1 < q.1) t.enum :=
  enumFrom_pairwise t 0



/-- The empty needle is a substring of every string, as in JavaScript
`includes`. -/
theorem strIncludes_empty (s : String) : strIncludes s "" = true := by
  unfold strIncludes
  show infixCheck [] s.data = true
  induction s.data with
  | nil => rfl
  | cons c t ih =>
    rw [infixCheck]
    rw [ih]
    simp [List.isPrefixOf]

/-- Full characterization of `findListingByAddressLike`: it returns
null exactly for falsy text or when no row matches; a returned triple
is a store row whose normalized synthesized address matches the
normalized text and has minimal length among all matching rows,
earliest on ties, paired with its raw synthesized address. -/
theorem findListing_characterization (st : Store) (text : String) :
    (findListingByAddressLike st text = none ↔
      (text = "" ∨ ∀ row ∈ st.rows,
        ¬ MatchesRow (normalizeAddressLike text) row)) ∧
    (∀ i row addr, findListingByAddressLike st text = some (i, row, addr) →
      st.rows.get? i = some row ∧ addr = formatAddress row ∧
      MatchesRow (normalizeAddressLike text) row ∧
      (∀ j rj, st.rows.get? j = some rj →
        MatchesRow (normalizeAddressLike text) rj →
        nlen row ≤ nlen rj ∧ (nlen rj = nlen row → i ≤ j))) := by
  unfold findListingByAddressLike
  by_cases htext : text = ""
  · rw [if_pos htext]
    exact ⟨⟨fun _ => Or.inl htext, fun _ => rfl⟩,
      fun i row addr h => Option.noConfusion h⟩
  · rw [if_neg htext]
    obtain ⟨hiff, hsome⟩ :=
      findAux_start (normalizeAddressLike text) st.rows.enum
        (enum_pairwise st.rows)
    cases hf : findAux (normalizeAddressLike text) st.rows.enum none with
    | none =>
      rw [hf] at hiff
      constructor
      · constructor
        · intro _
          refine Or.inr (fun row hrow => ?_)
          obtain ⟨n, hn⟩ := List.get_of_mem hrow
          have hmem : (n.1, row) ∈ st.rows.enum := by
            rw [List.mk_mem_enum_iff_getElem?]
            rw [← List.get?_eq_getElem?]
            rw [List.get?_eq_get n.2]
            rw [hn]
          exact (hiff.mp rfl) (n.1, row) hmem
        · intro _
          rfl
      · intro i row addr h
        exact Option.noConfusion h
    | some b =>
      obtain ⟨h1, h2, h3, ⟨p, hp, he1, he2⟩, h6, h7⟩ := hsome b hf
      have hpget : st.rows.get? p.1 = some p.2 := by
        rw [List.get?_eq_getElem?]
        rw [← List.mk_mem_enum_iff_getElem?]
        exact hp
      constructor
      · constructor
        · intro h
          exact Option.noConfusion h
        · rintro (h | h)
          · exact absurd h htext
          · refine absurd h3 (h b.row ?_)
            rw [he2]
            exact List.get?_mem hpget
      · intro i row addr heq
        have hi : i = b.rowIndex := by cases heq; rfl
        have hrow : row = b.row := by cases heq; rfl
        have haddr : addr = b.addr := by cases heq; rfl
        subst hi hrow haddr
        have hblen : b.addrNorm.length = nlen b.row := by
          unfold nlen
          rw [h2, h1]
        refine ⟨by rw [he1, he2]; exact hpget, by rw [h1], h3, ?_⟩
        intro j rj hj hmj
        have hjmem : (j, rj) ∈ st.rows.enum := by
          rw [List.mk_mem_enum_iff_getElem?, ← List.get?_eq_getElem?]
          exact hj
        constructor
        · rw [← hblen]
          exact h6 (j, rj) hjmem hmj
        · intro hlen
          exact h7 (j, rj) hjmem hmj (by rw [hlen, hblen])



/-! ## Claim C5: address-text resolution -/

/-- C5 counterexample: two rows whose synthesized addresses normalize
identically ("A--B, CA" and "A-B, CA" both normalize to "a b ca").
Both match the query "a b ca", the second row's synthesized address is
strictly shorter, yet the scan returns the first row — the code picks
the shortest *normalized* address (earliest on ties), not the shortest
synthesized address as the claim states. -/
theorem findListing_not_shortest_synthesized :
    findListingByAddressLike
        (Store.mk [[("City", "A--B")], [("City", "A-B")]] []) "a b ca" =
      some (0, [("City", "A--B")], "A--B, CA") ∧
    MatchesRow (normalizeAddressLike "a b ca") [("City", "A-B")] ∧
    (formatAddress [("City", "A-B")]).length <
      (formatAddress [("City", "A--B")]).length := by decide

/-- C5 amended: address-text resolution matches the user text against
every row's synthesized address by case/punctuation-normalized
substring test in both directions, and among several matching rows it
returns the one whose *normalized* synthesized address is shortest,
earliest row on ties of normalized length (in particular a query text
equal to a shorter address resolves to that row whenever its
normalized address is strictly shorter than the other matches);
no match yields null — never a crash — and the handler then replies
with a descriptive message. -/
theorem findListing_matches_shortest_normalized (st : Store)
    (text : String) :
    (findListingByAddressLike st text = none ↔
      (text = "" ∨ ∀ row ∈ st.rows,
        ¬ MatchesRow (normalizeAddressLike text) row)) ∧
    (∀ i row addr, findListingByAddressLike st text = some (i, row, addr) →
      st.rows.get? i = some row ∧ addr = formatAddress row ∧
      MatchesRow (normalizeAddressLike text) row ∧
      (∀ j rj, st.rows.get? j = some rj →
        MatchesRow (normalizeAddressLike text) rj →
        nlen row ≤ nlen rj ∧ (nlen rj = nlen row → i ≤ j))) :=
  findListing_characterization st text

/-- C5 amended witness: a store where the query matches one row
exactly; the characterization applied there yields the stored row, its
synthesized address, and minimality over the other (non-matching) row.
-/
theorem findListing_matches_shortest_normalized_witness :
    (Store.mk [[("City", "Gardena")], [("City", "X")]] []).rows.get? 1 =
      some [("City", "X")] ∧
    "X, CA" = formatAddress [("City", "X")] ∧
    MatchesRow (normalizeAddressLike "x ca") [("City", "X")] := by
  have h := (findListing_matches_shortest_normalized
    (Store.mk [[("City", "Gardena")], [("City", "X")]] []) "x ca").2
    1 [("City", "X")] "X, CA" (by decide)
  exact ⟨h.1, h.2.1, h.2.2.1⟩

/-! ## Claim C10: punctuation-only query text -/

/-- C10 counterexample: the row whose only cell is
`StateOrProvince = "--"` has the non-empty synthesized address "--",
but its *normalized* address is empty, so the scan skips it: for the
non-empty input "!!!" (which normalizes to the empty string) the
lookup reports no match instead of returning this row. -/
theorem findListing_skips_empty_normalized_address :
    ("!!!" : String) ≠ "" ∧
    normalizeAddressLike "!!!" = "" ∧
    formatAddress [("StateOrProvince", "--")] ≠ "" ∧
    findListingByAddressLike
      (Store.mk [[("StateOrProvince", "--")]] []) "!!!" = none := by decide

/-- C10 amended: `findListingByAddressLike` returns null for empty
input text; for any non-empty input whose normalization is the empty
string, it matches every row with a non-empty *normalized* synthesized
address (the empty needle is a substring of every string) and returns
the one with the shortest normalized address, and it reports no match
exactly when every row's normalized synthesized address is empty. -/
theorem findListing_empty_normalization (st : Store) (text : String) :
    findListingByAddressLike st "" = none ∧
    (text ≠ "" → normalizeAddressLike text = "" →
      ((findListingByAddressLike st text = none ↔
        ∀ row ∈ st.rows, normalizeAddressLike (formatAddress row) = "") ∧
       (∀ i row addr,
         findListingByAddressLike st text = some (i, row, addr) →
         st.rows.get? i = some row ∧
         normalizeAddressLike (formatAddress row) ≠ "" ∧
         (∀ j rj, st.rows.get? j = some rj →
           normalizeAddressLike (formatAddress rj) ≠ "" →
           nlen row ≤ nlen rj)))) := by
  constructor
  · rfl
  · intro hne hnorm
    have hmatch : ∀ row : Row, MatchesRow (normalizeAddressLike text) row ↔
        normalizeAddressLike (formatAddress row) ≠ "" := by
      intro row
      unfold MatchesRow
      rw [hnorm]
      constructor
      · intro h
        exact h.1
      · intro h
        exact ⟨h, Or.inr (strIncludes_empty _)⟩
    obtain ⟨hiff, hsome⟩ := findListing_characterization st text
    constructor
    · rw [hiff]
      constructor
      · rintro (h | h)
        · exact absurd h hne
        · intro row hrow
          by_contra hcon
          exact (h row hrow) ((hmatch row).mpr hcon)
      · intro h
        refine Or.inr (fun row hrow hm => ?_)
        exact ((hmatch row).mp hm) (h row hrow)
    · intro i row addr heq
      obtain ⟨hg, _, hm, hmin⟩ := hsome i row addr heq
      refine ⟨hg, (hmatch row).mp hm, ?_⟩
      intro j rj hj hmj
      exact (hmin j rj hj ((hmatch rj).mpr hmj)).1

/-- C10 amended witness: on a two-row store the punctuation-only query
"!!!" returns the row with the shorter normalized address. -/
theorem findListing_empty_normalization_witness :
    (Store.mk [[("City", "Gardena")], [("City", "X")]] []).rows.get? 1 =
      some [("City", "X")] ∧
    normalizeAddressLike (formatAddress [("City", "X")]) ≠ "" := by
  have h := ((findListing_empty_normalization
    (Store.mk [[("City", "Gardena")], [("City", "X")]] []) "!!!").2
    (by decide) (by decide)).2 1 [("City", "X")] "X, CA" (by decide)
  exact ⟨h.1, h.2.1⟩



/-! ## Claim C8: stored row indices always valid -/

/-- Every row index recorded in the conversation state refers to a
valid position of the store. -/
def StateInv (st : Store) (s : ChatState) : Prop :=
  (∀ e ∈ s.lastList, e.rowIndex < st.rows.length) ∧
  (∀ l, s.lastListing = some l → l.rowIndex < st.rows.length)

/-- C8: the initial state satisfies the index invariant, and every
operation that writes the Result List or Last Listing — producing a
list from store rows, resolving by index, and resolving by address —
preserves it, so the invariant holds for the lifetime of the process.
-/
theorem state_indices_valid (st : Store) (s : ChatState)
    (rows : List Row) (fields : Option (List String))
    (limit : Option Nat) (text : String) (idx : Int) :
    StateInv st initialState ∧
    (StateInv st s → (∀ r ∈ rows, r ∈ st.rows) →
      StateInv st (formatList st s rows fields limit).2) ∧
    (StateInv st s → ∀ res s2,
      ensureListingFromIndex st s idx = some (res, s2) →
      StateInv st s2) ∧
    (StateInv st s → StateInv st (resolveByAddress st s text)) := by
  refine ⟨⟨fun e he => absurd he (List.not_mem_nil e),
    fun l hl => Option.noConfusion hl⟩, ?_, ?_, ?_⟩
  · intro hinv hrows
    constructor
    · intro e he
      have : (formatList st s rows fields limit).2.lastList =
          (rows.take (jsLimit limit)).map
            (fun row => ListEntry.mk (jsIndexOf st.rows row)
              (formatAddress row)) := rfl
      rw [this] at he
      obtain ⟨r, hr, he2⟩ := List.mem_map.mp he
      rw [← he2]
      exact jsIndexOf_lt_length (hrows r (List.take_subset _ _ hr))
    · intro l hl
      exact hinv.2 l hl
  · intro hinv res s2 heq
    unfold ensureListingFromIndex at heq
    by_cases hz : s.lastList.length = 0
    · rw [if_pos hz] at heq
      cases heq
      exact hinv
    · rw [if_neg hz] at heq
      cases hget : listGetJs s.lastList (idx - 1) with
      | none =>
        rw [hget] at heq
        cases heq
        exact hinv
      | some item =>
        rw [hget] at heq
        dsimp only at heq
        have hmem : item ∈ s.lastList := by
          unfold listGetJs at hget
          by_cases hpos : (0 : Int) ≤ idx - 1
          · rw [if_pos hpos] at hget
            exact List.get?_mem hget
          · rw [if_neg hpos] at hget
            exact Option.noConfusion hget
        by_cases haddr : item.displayAddress ≠ ""
        · rw [if_pos haddr] at heq
          cases heq
          refine ⟨hinv.1, ?_⟩
          intro l hl
          cases hl
          exact hinv.1 item hmem
        · rw [if_neg haddr] at heq
          cases hrow : st.rows.get? item.rowIndex with
          | none =>
            rw [hrow] at heq
            exact Option.noConfusion heq
          | some r =>
            rw [hrow] at heq
            cases heq
            refine ⟨hinv.1, ?_⟩
            intro l hl
            cases hl
            exact hinv.1 item hmem
  · intro hinv
    unfold resolveByAddress
    cases hf : findListingByAddressLike st text with
    | none => exact hinv
    | some t =>
      obtain ⟨i, row, addr⟩ := t
      have hchar := (findListing_characterization st text).2 i row addr hf
      refine ⟨hinv.1, ?_⟩
      intro l hl
      cases hl
      obtain ⟨h, _⟩ := List.get?_eq_some.mp hchar.1
      exact h

/-- C8 witness: the invariant holds concretely after producing a list
from a one-row store starting at the initial state. -/
theorem state_indices_valid_witness :
    StateInv (Store.mk [[("City", "A")]] ["City"])
      (formatList (Store.mk [[("City", "A")]] ["City"]) initialState
        [[("City", "A")]] none none).2 :=
  (state_indices_valid (Store.mk [[("City", "A")]] ["City"]) initialState
      [[("City", "A")]] none none "" 1).2.1
    (state_indices_valid (Store.mk [[("City", "A")]] ["City"]) initialState
      [[("City", "A")]] none none "" 1).1
    (by decide)



/-! ## Claim C7: no stray separators in synthesized addresses -/

/-- The two separator characters used by `formatAddress`. -/
def isSepChar (c : Char) : Bool := c = ' ' || c = ','

/-- An adjacent character pair is acceptable when it is not two
separators in a row, except for the deliberate ", " sequence. -/
def pairOkSepB (a b : Char) : Bool :=
  !(isSepChar a && isSepChar b) || (a = ',' && b = ' ')

/-- Every adjacent pair of the character list is acceptable. -/
def chainOkSep : List Char → Bool
  | [] => true
  | [_] => true
  | a :: b :: t => pairOkSepB a b && chainOkSep (b :: t)

/-- No doubled separator anywhere, and no separator at either end
(the defaults are irrelevant: they are consulted only for the empty
string). -/
def NoBadSep (s : String) : Prop :=
  chainOkSep s.data = true ∧
  isSepChar (s.data.headD 'a') = false ∧
  isSepChar (s.data.getLastD 'a') = false

/-- A clean address component: no comma at all, and no doubled or
edge separator. -/
def CleanComp (s : String) : Prop :=
  (∀ c ∈ s.data, ¬ c = ',') ∧ NoBadSep s

instance (s : String) : Decidable (NoBadSep s) :=
  inferInstanceAs (Decidable (chainOkSep s.data = true ∧
    isSepChar (s.data.headD 'a') = false ∧
    isSepChar (s.data.getLastD 'a') = false))

instance (s : String) : Decidable (CleanComp s) :=
  inferInstanceAs (Decidable ((∀ c ∈ s.data, ¬ c = ',') ∧ NoBadSep s))

theorem chainOkSep_append :
    ∀ (l1 l2 : List Char), chainOkSep l1 = true → chainOkSep l2 = true →
      (∀ a b, l1.getLast? = some a → l2.head? = some b →
        pairOkSepB a b = true) →
      chainOkSep (l1 ++ l2) = true := by
  intro l1
  induction l1 with
  | nil =>
    intro l2 _ h2 _
    exact h2
  | cons a t ih =>
    intro l2 h1 h2 hj
    cases t with
    | nil =>
      cases l2 with
      | nil => rfl
      | cons b t2 =>
        show chainOkSep (a :: b :: t2) = true
        rw [chainOkSep]
        rw [hj a b rfl rfl, h2]
        rfl
    | cons b t2 =>
      show chainOkSep (a :: b :: (t2 ++ l2)) = true
      rw [chainOkSep]
      rw [chainOkSep] at h1
      have hpair : pairOkSepB a b = true := ((Bool.and_eq_true _ _).mp h1).1
      have htail : chainOkSep (b :: t2) = true := ((Bool.and_eq_true _ _).mp h1).2
      have hj2 : ∀ x y, (b :: t2).getLast? = some x → l2.head? = some y →
          pairOkSepB x y = true := by
        intro x y hx hy
        exact hj x y (by rw [List.getLast?_cons_cons]; exact hx) hy
      have := ih l2 htail h2 hj2
      rw [List.cons_append] at this
      rw [hpair, this]
      rfl



theorem data_ne_nil_of_ne {s : String} (h : s ≠ "") : s.data ≠ [] := by
  intro hc
  exact h (String.ext hc)

theorem ne_empty_of_data_ne {s : String} (h : s.data ≠ []) : s ≠ "" := by
  intro hc
  rw [hc] at h
  exact h rfl

theorem pairOk_right_nonsep {a b : Char} (h : isSepChar b = false) :
    pairOkSepB a b = true := by
  unfold pairOkSepB
  rw [h]
  simp

theorem pairOk_left_nonsep {a b : Char} (h : isSepChar a = false) :
    pairOkSepB a b = true := by
  unfold pairOkSepB
  rw [h]
  simp

theorem headD_append_left (l1 l2 : List Char) (h : l1 ≠ []) (d : Char) :
    (l1 ++ l2).headD d = l1.headD d := by
  cases l1 with
  | nil => exact absurd rfl h
  | cons a t => rfl

theorem getLastD_append_right (l1 l2 : List Char) (h : l2 ≠ [])
    (d : Char) : (l1 ++ l2).getLastD d = l2.getLastD d := by
  rw [List.getLastD_eq_getLast?, List.getLastD_eq_getLast?,
    List.getLast?_append]
  cases hz : l2.getLast? with
  | none => exact absurd (List.getLast?_eq_none_iff.mp hz) h
  | some a => rfl

theorem getLastD_irrel (l : List Char) (h : l ≠ []) (d1 d2 : Char) :
    l.getLastD d1 = l.getLastD d2 := by
  rw [List.getLastD_eq_getLast?, List.getLastD_eq_getLast?]
  cases hz : l.getLast? with
  | none => exact absurd (List.getLast?_eq_none_iff.mp hz) h
  | some a => rfl

theorem getLastD_of_getLast? {l : List Char} {c : Char} (d : Char)
    (h : l.getLast? = some c) : l.getLastD d = c := by
  rw [List.getLastD_eq_getLast?, h]
  rfl

theorem headD_of_head? {l : List Char} {c : Char} (d : Char)
    (h : l.head? = some c) : l.headD d = c := by
  cases l with
  | nil => exact Option.noConfusion h
  | cons a t =>
    cases h
    rfl

/-- Joining nonempty clean components with a single space yields a
clean component (in particular the street line of `formatAddress`),
nonempty when there is at least one part. -/
theorem joinSep_space_clean :
    ∀ parts : List String, (∀ p ∈ parts, p ≠ "" ∧ CleanComp p) →
      CleanComp (joinSep " " parts) ∧
      (parts ≠ [] → joinSep " " parts ≠ "") := by
  intro parts
  induction parts with
  | nil =>
    intro _
    exact ⟨by decide, fun h => absurd rfl h⟩
  | cons x xs ih =>
    intro h
    obtain ⟨hxne, hxcomma, hxchain, hxhead, hxlast⟩ :=
      (fun hx => ⟨hx.1, hx.2.1, hx.2.2.1, hx.2.2.2.1, hx.2.2.2.2⟩ :
        x ≠ "" ∧ CleanComp x →
          x ≠ "" ∧ (∀ c ∈ x.data, ¬ c = ',') ∧ chainOkSep x.data = true ∧
          isSepChar (x.data.headD 'a') = false ∧
          isSepChar (x.data.getLastD 'a') = false)
      (h x (List.mem_cons_self _ _))
    cases xs with
    | nil => exact ⟨(h x (List.mem_cons_self _ _)).2, fun _ => hxne⟩
    | cons y t =>
      obtain ⟨⟨hjcomma, hjchain, hjhead, hjlast⟩, hjne0⟩ :=
        ih (fun p hp => h p (List.mem_cons_of_mem _ hp))
      have hjne : joinSep " " (y :: t) ≠ "" := hjne0 (by simp)
      have hjdata : (joinSep " " (y :: t)).data ≠ [] := data_ne_nil_of_ne hjne
      have hxdata : x.data ≠ [] := data_ne_nil_of_ne hxne
      have hdata : (joinSep " " (x :: y :: t)).data =
          x.data ++ (' ' :: (joinSep " " (y :: t)).data) := by
        show (x ++ " " ++ joinSep " " (y :: t)).data = _
        rw [String.data_append, String.data_append, List.append_assoc]
        rfl
      have hne2 : joinSep " " (x :: y :: t) ≠ "" := by
        apply ne_empty_of_data_ne
        rw [hdata]
        intro hc
        exact hxdata (List.append_eq_nil.mp hc).1
      refine ⟨⟨?_, ?_, ?_, ?_⟩, fun _ => hne2⟩
      · intro c hc
        rw [hdata] at hc
        rcases List.mem_append.mp hc with h1 | h2
        · exact hxcomma c h1
        · rcases List.mem_cons.mp h2 with he | h3
          · rw [he]
            decide
          · exact hjcomma c h3
      · rw [hdata]
        apply chainOkSep_append
        · exact hxchain
        · cases hjd : (joinSep " " (y :: t)).data with
          | nil => exact absurd hjd hjdata
          | cons b t2 =>
            show chainOkSep (' ' :: b :: t2) = true
            rw [chainOkSep]
            have hb : isSepChar b = false := by
              have := hjhead
              rw [hjd] at this
              exact this
            rw [pairOk_right_nonsep hb]
            rw [hjd] at hjchain
            rw [hjchain]
            rfl
        · intro a b ha hb
          cases hb
          apply pairOk_left_nonsep
          rw [← getLastD_of_getLast? 'a' ha]
          exact hxlast
      · rw [hdata, headD_append_left _ _ hxdata]
        exact hxhead
      · rw [hdata, getLastD_append_right _ _ (by simp)]
        have : (' ' :: (joinSep " " (y :: t)).data).getLastD 'a' =
            (joinSep " " (y :: t)).data.getLastD ' ' := by
          rw [List.getLastD_cons]
        rw [this, getLastD_irrel _ hjdata ' ' 'a']
        exact hjlast

/-- Joining nonempty separator-clean parts with ", " yields a string
with no doubled or edge separator, nonempty when there is at least one
part. -/
theorem joinSep_commaSpace_ok :
    ∀ parts : List String, (∀ p ∈ parts, p ≠ "" ∧ NoBadSep p) →
      NoBadSep (joinSep ", " parts) ∧
      (parts ≠ [] → joinSep ", " parts ≠ "") := by
  intro parts
  induction parts with
  | nil =>
    intro _
    exact ⟨by decide, fun h => absurd rfl h⟩
  | cons x xs ih =>
    intro h
    obtain ⟨hxne, hxchain, hxhead, hxlast⟩ :=
      (fun hx => ⟨hx.1, hx.2.1, hx.2.2.1, hx.2.2.2⟩ :
        x ≠ "" ∧ NoBadSep x →
          x ≠ "" ∧ chainOkSep x.data = true ∧
          isSepChar (x.data.headD 'a') = false ∧
          isSepChar (x.data.getLastD 'a') = false)
      (h x (List.mem_cons_self _ _))
    cases xs with
    | nil => exact ⟨(h x (List.mem_cons_self _ _)).2, fun _ => hxne⟩
    | cons y t =>
      obtain ⟨⟨hjchain, hjhead, hjlast⟩, hjne0⟩ :=
        ih (fun p hp => h p (List.mem_cons_of_mem _ hp))
      have hjne : joinSep ", " (y :: t) ≠ "" := hjne0 (by simp)
      have hjdata : (joinSep ", " (y :: t)).data ≠ [] :=
        data_ne_nil_of_ne hjne
      have hxdata : x.data ≠ [] := data_ne_nil_of_ne hxne
      have hdata : (joinSep ", " (x :: y :: t)).data =
          x.data ++ (',' :: ' ' :: (joinSep ", " (y :: t)).data) := by
        show (x ++ ", " ++ joinSep ", " (y :: t)).data = _
        rw [String.data_append, String.data_append, List.append_assoc]
        rfl
      have hne2 : joinSep ", " (x :: y :: t) ≠ "" := by
        apply ne_empty_of_data_ne
        rw [hdata]
        intro hc
        exact hxdata (List.append_eq_nil.mp hc).1
      refine ⟨⟨?_, ?_, ?_⟩, fun _ => hne2⟩
      · rw [hdata]
        apply chainOkSep_append
        · exact hxchain
        · cases hjd : (joinSep ", " (y :: t)).data with
          | nil => exact absurd hjd hjdata
          | cons b t2 =>
            show chainOkSep (',' :: ' ' :: b :: t2) = true
            rw [chainOkSep]
            have hb : isSepChar b = false := by
              have := hjhead
              rw [hjd] at this
              exact this
            have h2 : chainOkSep (' ' :: b :: t2) = true := by
              rw [chainOkSep]
              rw [pairOk_right_nonsep hb]
              rw [hjd] at hjchain
              rw [hjchain]
              rfl
            rw [h2]
            rfl
        · intro a b ha hb
          cases hb
          apply pairOk_left_nonsep
          rw [← getLastD_of_getLast? 'a' ha]
          exact hxlast
      · rw [hdata, headD_append_left _ _ hxdata]
        exact hxhead
      · rw [hdata, getLastD_append_right _ _ (by simp)]
        have h1 : (',' :: ' ' :: (joinSep ", " (y :: t)).data).getLastD 'a' =
            (' ' :: (joinSep ", " (y :: t)).data).getLastD ',' := by
          rw [List.getLastD_cons]
        have h2 : (' ' :: (joinSep ", " (y :: t)).data).getLastD ',' =
            (joinSep ", " (y :: t)).data.getLastD ' ' := by
          rw [List.getLastD_cons]
        rw [h1, h2, getLastD_irrel _ hjdata ' ' 'a']
        exact hjlast



/-- C7: whatever subset of the seven address components is empty, as
long as each component is itself free of commas and of doubled or edge
separators (CSV cells are trimmed at load), `formatAddress` yields a
string with no leading separator, no trailing separator, and no
doubled separator: dropped empty components leave no stray comma or
space. -/
theorem formatAddress_no_stray_separators (row : Row)
    (h : ∀ comp ∈ addrComponents row, CleanComp comp) :
    NoBadSep (formatAddress row) := by
  have hmem4 : ∀ p ∈ [streetNumOf row, dirPreOf row, streetNameOf row,
      suffixOf row], p ∈ addrComponents row := by
    intro p hp
    unfold addrComponents
    rcases List.mem_cons.mp hp with he | hp2
    · rw [he]; simp
    rcases List.mem_cons.mp hp2 with he | hp3
    · rw [he]; simp
    rcases List.mem_cons.mp hp3 with he | hp4
    · rw [he]; simp
    rcases List.mem_cons.mp hp4 with he | hp5
    · rw [he]; simp
    · exact absurd hp5 (List.not_mem_nil p)
  have hstreet := joinSep_space_clean
    (([streetNumOf row, dirPreOf row, streetNameOf row,
       suffixOf row]).filter (fun s => s ≠ ""))
    (by
      intro p hp
      obtain ⟨hm, hne⟩ := List.mem_filter.mp hp
      exact ⟨of_decide_eq_true hne, h p (hmem4 p hm)⟩)
  have houter := joinSep_commaSpace_ok
    (([joinSep " "
        (([streetNumOf row, dirPreOf row, streetNameOf row,
           suffixOf row]).filter (fun s => s ≠ "")),
       cityOf row, stateOf row, zipOf row]).filter (fun s => s ≠ ""))
    (by
      intro p hp
      obtain ⟨hm, hne⟩ := List.mem_filter.mp hp
      refine ⟨of_decide_eq_true hne, ?_⟩
      rcases List.mem_cons.mp hm with he | hm2
      · rw [he]
        exact hstreet.1.2
      rcases List.mem_cons.mp hm2 with he | hm3
      · rw [he]
        exact (h _ (by unfold addrComponents; simp)).2
      rcases List.mem_cons.mp hm3 with he | hm4
      · rw [he]
        exact (h _ (by unfold addrComponents; simp)).2
      rcases List.mem_cons.mp hm4 with he | hm5
      · rw [he]
        exact (h _ (by unfold addrComponents; simp)).2
      · exact absurd hm5 (List.not_mem_nil p))
  exact houter.1

/-- C7 witness: a concrete row with an empty directional prefix and no
state cell (defaulted to "CA") renders without stray separators. -/
theorem formatAddress_no_stray_separators_witness :
    (∀ comp ∈ addrComponents [("StreetNumber", "123"),
      ("StreetName", "Main"), ("StreetSuffix", "St"),
      ("City", "Gardena"), ("PostalCode", "90247")], CleanComp comp) ∧
    NoBadSep (formatAddress [("StreetNumber", "123"),
      ("StreetName", "Main"), ("StreetSuffix", "St"),
      ("City", "Gardena"), ("PostalCode", "90247")]) :=
  ⟨by decide, formatAddress_no_stray_separators _ (by decide)⟩


end Mls
